import Mathlib

/-!
# Lilypad: websocket fan-out server and services options

A shallow embedding of

* `pkg/http/websocket_server.go` : `StartWebSocketServer`, i.e. the connection
  registry (`addConnection`, `removeConnection`), the dispatch goroutine
  (`for { select { ... } }` with its fan-out `range` loop) and the upgrade
  handler with its read loop;
* `pkg/options/services.go` : `AddServicesCliFlags`, `CheckServicesOptions`.

The server is modelled as a state machine over interleaved goroutines.  The
dispatch goroutine advances one statement at a time (`Event.tick`): the
`select`, the next entry of the `range`, `mu.Lock()`, `WriteMessage`,
`mu.Unlock()`; any step of a handler may come between two of them.  The handler
up to its first `ReadMessage` is one step, and every `ReadMessage` result
together with the code that follows it is one step.  `Event.loop` is one whole
iteration of the dispatch `for`/`select`, fan-out pass included, run with no
other goroutine scheduled in between: it is the same as a sequence of ticks
(`loop_eq_ticks`).  Everything a goroutine does is appended, in program order,
to an event trace.

What the environment decides is an explicit input: the order in which a Go
`range` statement visits a map, the outcome of every `WriteMessage` call, the
case a `select` takes when both cases are ready, the result of `Upgrade` and
of every `ReadMessage`.
-/

namespace Lilypad

/-! ## Data model -/

/-- Identity of a `*websocket.Conn`. -/
abbrev Conn := Nat

/-- A `[]byte` message. -/
abbrev Payload := List (Fin 256)

/-- The constant `websocket.TextMessage`. -/
def TextMessage : Nat := 1

/-- The constant `websocket.CloseMessage`. -/
def CloseMessage : Nat := 8

/-- The struct `ConnectionWrapper`: the connection and its mutex (`true` when held). -/
structure ConnectionWrapper where
  conn : Conn
  mu : Bool
deriving DecidableEq, Repr

/-- The map `connections`, as an association list with one entry per key. -/
abbrev Registry := List (Conn × ConnectionWrapper)

/-- Severity of a log line. -/
inductive LogLevel where
  | debug
  | error
  | trace
deriving DecidableEq, Repr

/-- The log lines of `websocket_server.go`. -/
inductive LogLine where
  | wsWrite
  | writeError
  | upgradeError
  | wsConnect
  | clientDisconnected
  | closeFrame
deriving DecidableEq, Repr

/-- Result of `conn.ReadMessage()`: an error, or a message of some type. -/
inductive ReadResult where
  | err
  | msg (messageType : Nat)
deriving DecidableEq, Repr

/-- Observable actions, recorded in program order. -/
inductive Ev where
  /-- Call of `mutex.Lock()` on the registry mutex -/
  | mutexLock
  /-- Call of `mutex.Unlock()` on the registry mutex -/
  | mutexUnlock
  /-- Map assignment `connections[conn] = ...` -/
  | mapStore (c : Conn)
  /-- Map deletion `delete(connections, conn)` -/
  | mapDelete (c : Conn)
  /-- Read of `len(connections)` -/
  | mapLen (n : Nat)
  /-- Statement `range connections`, with the keys in the order they are visited -/
  | mapRange (keys : List Conn)
  /-- Call of `connWrapper.mu.Lock()` of the wrapper stored under key `k` -/
  | muLock (k : Conn)
  /-- Call of `connWrapper.mu.Unlock()` of the wrapper stored under key `k` -/
  | muUnlock (k : Conn)
  /-- Call of `conn.WriteMessage(messageType, data)`; `held` tells whether the wrapper's
  mutex is held at the time of the call, `failed` whether it returned an error -/
  | writeMessage (c : Conn) (messageType : Nat) (data : Payload) (held : Bool) (failed : Bool)
  /-- Call of `conn.ReadMessage()` with its result -/
  | readMessage (c : Conn) (r : ReadResult)
  /-- Call of `conn.Close()` -/
  | close (c : Conn)
  /-- A log line -/
  | log (lvl : LogLevel) (line : LogLine)
deriving DecidableEq, Repr

/-- What the environment decides about the dispatch goroutine.  Both oracles
are indexed by the length of the trace at the time of the call. -/
structure Env where
  /-- Order in which `range connections` visits the keys -/
  rangeOrder : Nat → List Conn → List Conn
  /-- A `range` visits every entry once -/
  rangeOrder_perm : ∀ t keys, (rangeOrder t keys).Perm keys
  /-- Whether `WriteMessage` returns an error -/
  writeErr : Nat → Conn → Payload → Bool

/-- Status of the dispatch goroutine. -/
inductive LoopStatus where
  /-- Inside `for { select ... }` -/
  | running
  /-- The goroutine has returned -/
  | returned
  /-- Stuck in `mu.Lock()` of a mutex that is held -/
  | blocked
  /-- In the `range` over `connections` for `message`, between two iterations;
  `todo` holds the keys not reached yet -/
  | ranging (message : Payload) (todo : List Conn)
  /-- The `range` has produced the entry of key `k` and `connWrapper` points to
  `w`; before `connWrapper.mu.Lock()` -/
  | fetched (message : Payload) (todo : List Conn) (k : Conn) (w : ConnectionWrapper)
  /-- After `connWrapper.mu.Lock()`, before `WriteMessage` -/
  | locked (message : Payload) (todo : List Conn) (k : Conn) (w : ConnectionWrapper)
  /-- After `WriteMessage`, before `connWrapper.mu.Unlock()` -/
  | wrote (message : Payload) (todo : List Conn) (k : Conn) (w : ConnectionWrapper)
      (failed : Bool)
deriving DecidableEq, Repr

/-- State of one `StartWebSocketServer` instance. -/
structure State where
  /-- The map `connections` -/
  connections : Registry
  /-- Messages sent on `messageChan` and not yet received -/
  messageChan : List Payload
  /-- Whether `ctx.Done()` is closed -/
  ctxDone : Bool
  /-- The dispatch goroutine -/
  dispatcher : LoopStatus
  /-- Connections whose handler is inside its read loop -/
  reading : List Conn
  /-- Connections on which `Close` has been called -/
  closed : List Conn
  /-- Everything done so far -/
  trace : List Ev
deriving DecidableEq, Repr

/-- State right after `StartWebSocketServer` returns. -/
def State.init : State :=
  { connections := [], messageChan := [], ctxDone := false, dispatcher := .running,
    reading := [], closed := [], trace := [] }

/-! ## Registry -/

/-- Keys of the map. -/
def keys (reg : Registry) : List Conn := reg.map Prod.fst

/-- Map assignment `reg[c] = w`. -/
def mapStore (reg : Registry) (c : Conn) (w : ConnectionWrapper) : Registry :=
  if c ∈ keys reg then reg.map (fun e => if e.1 = c then (c, w) else e) else reg ++ [(c, w)]

/-- Builtin `delete(reg, c)`. -/
def mapDelete (reg : Registry) (c : Conn) : Registry :=
  reg.filter (fun e => decide (e.1 ≠ c))

/-- Set the mutex of the wrapper stored under key `k`. -/
def setMu (reg : Registry) (k : Conn) (b : Bool) : Registry :=
  reg.map (fun e => if e.1 = k then (e.1, { e.2 with mu := b }) else e)

/-- Whether the mutex of the wrapper stored under key `k` is held. -/
def muHeld (reg : Registry) (k : Conn) : Bool :=
  match reg.lookup k with
  | some w => w.mu
  | none => false

/-- The closure `addConnection`. -/
def addConnection (conn : Conn) (s : State) : State :=
  { s with
    connections := mapStore s.connections conn { conn := conn, mu := false }
    trace := s.trace ++ [.mutexLock, .mapStore conn, .mutexUnlock] }

/-- The closure `removeConnection`. -/
def removeConnection (conn : Conn) (s : State) : State :=
  { s with
    connections := mapDelete s.connections conn
    trace := s.trace ++ [.mutexLock, .mapDelete conn, .mutexUnlock] }

/-! ## Dispatch goroutine -/

/-- The loop `for _, connWrapper := range connections { ... }` over the keys
still to be visited. -/
def fanOut (env : Env) (message : Payload) : List Conn → State → State
  | [], s => s
  | k :: rest, s =>
    match s.connections.lookup k with
    | none => fanOut env message rest s
    | some connWrapper =>
      if connWrapper.mu then { s with dispatcher := .blocked }
      else
        let s1 : State :=
          { s with connections := setMu s.connections k true, trace := s.trace ++ [.muLock k] }
        let failed := env.writeErr s1.trace.length connWrapper.conn message
        let s2 : State :=
          { s1 with
            trace := s1.trace ++
              [.writeMessage connWrapper.conn TextMessage message (muHeld s1.connections k) failed] }
        if failed then
          { s2 with
            connections := setMu s2.connections k false
            trace := s2.trace ++ [.log .error .writeError, .muUnlock k]
            dispatcher := .returned }
        else
          fanOut env message rest
            { s2 with
              connections := setMu s2.connections k false
              trace := s2.trace ++ [.muUnlock k] }

/-- One iteration of `for { select { case message := <-messageChan: ...
case <-ctx.Done(): return } }`.  When both cases are ready the `select` takes
either; `pick = true` stands for the `ctx.Done()` case. -/
def dispatchIter (env : Env) (pick : Bool) (s : State) : State :=
  match s.dispatcher with
  | .running =>
    match s.messageChan with
    | [] => if s.ctxDone then { s with dispatcher := .returned } else s
    | message :: rest =>
      if s.ctxDone && pick then { s with dispatcher := .returned }
      else
        let s1 : State :=
          { s with
            messageChan := rest
            trace := s.trace ++ [.mapLen s.connections.length, .log .debug .wsWrite] }
        let order := env.rangeOrder s1.trace.length (keys s1.connections)
        fanOut env message order { s1 with trace := s1.trace ++ [.mapRange order] }
  | _ => s

/-- The next statement of the dispatch goroutine, from where it stands: the
`select` (as in `dispatchIter`, up to the start of the `range`), the next entry
of the `range` (an entry deleted since the `range` began is not produced; one
stored since then is not produced either, which Go allows), `mu.Lock()`,
`WriteMessage`, then `mu.Unlock()` and, after a failed write, the error log
and `return`. -/
def dispatchTick (env : Env) (pick : Bool) (s : State) : State :=
  match s.dispatcher with
  | .running =>
    match s.messageChan with
    | [] => if s.ctxDone then { s with dispatcher := .returned } else s
    | message :: rest =>
      if s.ctxDone && pick then { s with dispatcher := .returned }
      else
        let s1 : State :=
          { s with
            messageChan := rest
            trace := s.trace ++ [.mapLen s.connections.length, .log .debug .wsWrite] }
        let order := env.rangeOrder s1.trace.length (keys s1.connections)
        { s1 with trace := s1.trace ++ [.mapRange order], dispatcher := .ranging message order }
  | .ranging message todo =>
    match todo with
    | [] => { s with dispatcher := .running }
    | k :: rest =>
      match s.connections.lookup k with
      | none => { s with dispatcher := .ranging message rest }
      | some connWrapper => { s with dispatcher := .fetched message rest k connWrapper }
  | .fetched message rest k connWrapper =>
    if muHeld s.connections k then { s with dispatcher := .blocked }
    else
      { s with
        connections := setMu s.connections k true
        trace := s.trace ++ [.muLock k]
        dispatcher := .locked message rest k { connWrapper with mu := true } }
  | .locked message rest k connWrapper =>
    let failed := env.writeErr s.trace.length connWrapper.conn message
    { s with
      trace := s.trace ++
        [.writeMessage connWrapper.conn TextMessage message connWrapper.mu failed]
      dispatcher := .wrote message rest k connWrapper failed }
  | .wrote message rest k _ failed =>
    if failed then
      { s with
        connections := setMu s.connections k false
        trace := s.trace ++ [.log .error .writeError, .muUnlock k]
        dispatcher := .returned }
    else
      { s with
        connections := setMu s.connections k false
        trace := s.trace ++ [.muUnlock k]
        dispatcher := .ranging message rest }
  | .returned => s
  | .blocked => s

/-! ## Upgrade handler -/

/-- The handler from its entry to the first `ReadMessage`; `up` is the result
of `upgrader.Upgrade` (`none` for an error). -/
def handleRequest (up : Option Conn) (s : State) : State :=
  match up with
  | none => { s with trace := s.trace ++ [.log .error .upgradeError] }
  | some conn =>
    let s1 := addConnection conn s
    { s1 with reading := conn :: s1.reading, trace := s1.trace ++ [.log .debug .wsConnect] }

/-- The end of the handler: `removeConnection(conn)`, then the deferred
`conn.Close()`. -/
def handlerExit (conn : Conn) (s : State) : State :=
  let s1 := removeConnection conn s
  { s1 with
    reading := s1.reading.erase conn
    closed := conn :: s1.closed
    trace := s1.trace ++ [.close conn] }

/-- One iteration of the read loop of the handler of `conn`, for the result `r`
of `conn.ReadMessage()`.  Nothing happens when that handler is not inside its
read loop. -/
def handleRead (conn : Conn) (r : ReadResult) (s : State) : State :=
  if conn ∈ s.reading then
    let s1 : State := { s with trace := s.trace ++ [.readMessage conn r] }
    match r with
    | .err =>
      handlerExit conn { s1 with trace := s1.trace ++ [.log .trace .clientDisconnected] }
    | .msg messageType =>
      if messageType = CloseMessage then
        handlerExit conn { s1 with trace := s1.trace ++ [.log .trace .closeFrame] }
      else s1
  else s

/-! ## The whole server -/

/-- Steps of the server and of its environment. -/
inductive Event where
  /-- The producer sends a message on `messageChan` -/
  | send (message : Payload)
  /-- The context is cancelled -/
  | cancel
  /-- The dispatch goroutine runs one whole iteration of its loop, with no
  other goroutine scheduled in between -/
  | loop (pick : Bool)
  /-- The dispatch goroutine executes its next statement -/
  | tick (pick : Bool)
  /-- A request reaches the handler; `up` is the result of the upgrade -/
  | request (up : Option Conn)
  /-- The handler of `conn` gets a result from `ReadMessage` -/
  | read (conn : Conn) (r : ReadResult)
deriving DecidableEq, Repr

/-- One step. -/
def step (env : Env) (s : State) : Event → State
  | .send message => { s with messageChan := s.messageChan ++ [message] }
  | .cancel => { s with ctxDone := true }
  | .loop pick => dispatchIter env pick s
  | .tick pick => dispatchTick env pick s
  | .request up => handleRequest up s
  | .read conn r => handleRead conn r s

/-- A run. -/
def run (env : Env) (s : State) (es : List Event) : State :=
  es.foldl (step env) s

/-! ## Observations on traces -/

/-- The payloads written to `c`, in order. -/
def writesTo (c : Conn) (tr : List Ev) : List Payload :=
  tr.filterMap fun
    | .writeMessage c' _ data _ _ => if c' = c then some data else none
    | _ => none

/-- All `WriteMessage` calls, in order. -/
def writes (tr : List Ev) : List (Conn × Payload) :=
  tr.filterMap fun
    | .writeMessage c _ data _ _ => some (c, data)
    | _ => none

/-- A registry as `addConnection` builds it, between two fan-out passes: one
entry per key, every wrapper holds the connection it is stored under, no
wrapper mutex is held. -/
def WF (reg : Registry) : Prop :=
  (keys reg).Nodup ∧ ∀ e ∈ reg, e.2.conn = e.1 ∧ e.2.mu = false

instance (reg : Registry) : Decidable (WF reg) := by
  unfold WF; infer_instance

/-- The key whose wrapper mutex the dispatch goroutine holds, from where it stands. -/
def lockedKey : LoopStatus → Option Conn
  | .locked _ _ k _ => some k
  | .wrote _ _ k _ _ => some k
  | _ => none

/-- The wrapper the local variable `connWrapper` of the dispatch goroutine
points to, from where it stands. -/
def inHand : LoopStatus → Option ConnectionWrapper
  | .fetched _ _ _ w => some w
  | .locked _ _ _ w => some w
  | .wrote _ _ _ w _ => some w
  | _ => none

/-- A registry with one entry per key, every wrapper holding the connection it
is stored under, and no wrapper mutex held except the one of key `lk`. -/
def RegInv (lk : Option Conn) (reg : Registry) : Prop :=
  (keys reg).Nodup ∧ ∀ e ∈ reg, e.2.conn = e.1 ∧ (e.2.mu = true → lk = some e.1)

/-- The invariant of the server: the registry is as `addConnection` builds it
and a wrapper mutex is held only by the dispatch goroutine, between its `Lock`
and its `Unlock`. -/
def Inv (s : State) : Prop := RegInv (lockedKey s.dispatcher) s.connections

/-- The connection `c` is out of reach of the dispatch goroutine: it is not a
key of the registry, no wrapper of the registry holds it, and `connWrapper`
does not point to a wrapper that holds it. -/
def Released (c : Conn) (s : State) : Prop :=
  (∀ e ∈ s.connections, e.2.conn = e.1) ∧ c ∉ keys s.connections ∧
    ∀ w, inHand s.dispatcher = some w → w.conn ≠ c

/-- An environment in which `range` visits the keys in map order and no write fails. -/
def Env.calm : Env :=
  { rangeOrder := fun _ ks => ks
    rangeOrder_perm := fun _ _ => List.Perm.refl _
    writeErr := fun _ _ _ => false }

/-- An environment in which `range` visits the keys in map order and exactly
the writes to `bad` fail. -/
def Env.failing (bad : Conn) : Env :=
  { rangeOrder := fun _ ks => ks
    rangeOrder_perm := fun _ _ => List.Perm.refl _
    writeErr := fun _ c _ => decide (c = bad) }

/-- The events of a fan-out pass over `order` that starts when the trace has
length `t`, on a registry satisfying `WF`. -/
def passTrace (env : Env) (message : Payload) : Nat → List Conn → List Ev
  | _, [] => []
  | t, k :: rest =>
    if env.writeErr (t + 1) k message then
      [.muLock k, .writeMessage k TextMessage message true true,
        .log .error .writeError, .muUnlock k]
    else
      [.muLock k, .writeMessage k TextMessage message true false, .muUnlock k]
        ++ passTrace env message (t + 3) rest

/-- Whether some write of that pass fails. -/
def passFails (env : Env) (message : Payload) : Nat → List Conn → Bool
  | _, [] => false
  | t, k :: rest =>
    if env.writeErr (t + 1) k message then true else passFails env message (t + 3) rest

/-- The events of one dispatch iteration that receives `message` in state `s`,
on a registry satisfying `WF`. -/
def iterTrace (env : Env) (s : State) (message : Payload) : List Ev :=
  [.mapLen s.connections.length, .log .debug .wsWrite,
    .mapRange (env.rangeOrder (s.trace.length + 2) (keys s.connections))]
  ++ passTrace env message (s.trace.length + 3)
      (env.rangeOrder (s.trace.length + 2) (keys s.connections))

/-- Whether a write fails in that iteration. -/
def iterFails (env : Env) (s : State) (message : Payload) : Bool :=
  passFails env message (s.trace.length + 3)
    (env.rangeOrder (s.trace.length + 2) (keys s.connections))

/-- Where the dispatch goroutine stands with respect to the write guards:
it holds none, it has just locked the one of `k`, or it has written under the
one of `k` and not yet released it. -/
inductive Guard where
  | free
  | locked (k : Conn)
  | written (k : Conn)
deriving DecidableEq, Repr

/-- Check of the write-guard discipline on a trace: a `WriteMessage` comes
right after the `Lock` of the wrapper of the connection written to and sees the
mutex held; after the write only log lines come before the `Unlock` of the same
wrapper; no guard is locked twice or unlocked when free; no guard is held at
the end. -/
def guardOk : Guard → List Ev → Bool
  | .free, [] => true
  | .locked _, [] => false
  | .written _, [] => false
  | .free, .muLock k :: r => guardOk (.locked k) r
  | .free, .muUnlock _ :: _ => false
  | .free, .writeMessage _ _ _ _ _ :: _ => false
  | .free, _ :: r => guardOk .free r
  | .locked k, .writeMessage c _ _ held _ :: r =>
    decide (c = k) && held && guardOk (.written k) r
  | .locked _, _ :: _ => false
  | .written k, .muUnlock k2 :: r => decide (k2 = k) && guardOk .free r
  | .written k, .log _ _ :: r => guardOk (.written k) r
  | .written _, _ :: _ => false

/-- The message `"ping"`. -/
def ping : Payload := [112, 105, 110, 103]

/-- The message `"pong"`. -/
def pong : Payload := [112, 111, 110, 103]

/-- Three clients connected, `"ping"` sent and not yet received. -/
def threeClients : State :=
  run Env.calm State.init
    [.request (some 1), .request (some 2), .request (some 3), .send ping]

/-- Three clients, `"ping"` received by the dispatch goroutine, whose `range`
has produced the wrapper of client 1 and which has not locked it yet; at that
point client 1 sends a close message and its handler deregisters and closes
the connection. -/
def removedInFlight : State :=
  run Env.calm threeClients [.tick false, .tick false, .read 1 (.msg CloseMessage)]

/-- One client connected, `"ping"` sent and not yet received, context cancelled. -/
def cancelledWithBacklog : State :=
  run Env.calm State.init [.request (some 1), .send ping, .cancel]

/-- Three clients, `"ping"` and `"pong"` sent, every write to client 1 failing,
`range` visiting client 1 first, after two loop iterations. -/
def afterFailedWrite : State :=
  run (Env.failing 1) threeClients [.send pong, .loop false, .loop false]

/-! ## Services options (`pkg/options/services.go`) -/

/-- Modelled from the spec: the struct `data.ServiceConfig` is declared in
`pkg/data`, outside the sources at hand; its two fields are taken from their
uses in `services.go` (`StringVar` on `Solver`, `StringSliceVar` on `Mediator`,
`Solver == ""`, `len(Mediator)`). -/
structure ServiceConfig where
  Solver : String
  Mediator : List String
deriving DecidableEq, Repr

/-- Variable a flag is bound to, with its default value. -/
inductive FlagValue where
  | string (dflt : String)
  | stringSlice (dflt : List String)
deriving DecidableEq, Repr

/-- A flag of a cobra command. -/
structure Flag where
  name : String
  value : FlagValue
  usage : String
deriving DecidableEq, Repr

/-- The function `AddServicesCliFlags`, on the persistent flags of the command. -/
def AddServicesCliFlags (cmd : List Flag) (servicesConfig : ServiceConfig) : List Flag :=
  cmd ++
    [ { name := "service-solver", value := .string servicesConfig.Solver,
        usage := "The solver to connect to (SERVICE_SOLVER)" },
      { name := "serviec-mediators", value := .stringSlice servicesConfig.Mediator,
        usage := "The mediators we trust (SERVICE_MEDIATORS)" } ]

/-- The function `CheckServicesOptions`; `none` is the `nil` error. -/
def CheckServicesOptions (options : ServiceConfig) : Option String :=
  if options.Solver = "" then
    some "No solver service specified - please use SERVICE_SOLVER or --service-solver"
  else if options.Mediator.length = 0 then
    some "No mediators services specified - please use SERVICE_MEDIATORS or --service-mediators"
  else none

/-- Split at blanks; `cur` is the current word, reversed. -/
def wordsAux : List Char → List Char → List (List Char)
  | [], cur => [cur.reverse]
  | c :: cs, cur =>
    if c = Char.ofNat 32 then cur.reverse :: wordsAux cs [] else wordsAux cs (c :: cur)

/-- The command-line flags a text names: its words that start with `--`,
without the dashes. -/
def flagsNamed (text : String) : List String :=
  (wordsAux text.data []).filterMap fun w =>
    match w with
    | a :: b :: name =>
      if a = Char.ofNat 45 ∧ b = Char.ofNat 45 then some (String.mk name) else none
    | _ => none

/-! ## Registry lemmas -/

theorem lookup_of_mem_keys (reg : Registry) (k : Conn) (h : k ∈ keys reg) :
    ∃ w, reg.lookup k = some w ∧ (k, w) ∈ reg := by
  induction reg with
  | nil => simp [keys] at h
  | cons e reg ih =>
    obtain ⟨a, w⟩ := e
    by_cases hk : k = a
    · subst hk
      exact ⟨w, by simp [List.lookup], by simp⟩
    · have h2 : k ∈ keys reg := by
        simp only [keys, List.map_cons, List.mem_cons] at h
        rcases h with h | h
        · exact absurd h hk
        · exact h
      obtain ⟨w2, h3, h4⟩ := ih h2
      refine ⟨w2, ?_, List.mem_cons_of_mem _ h4⟩
      have hb : (k == a) = false := by simpa using hk
      simp [List.lookup, hb, h3]

theorem lookup_WF (reg : Registry) (k : Conn) (hwf : WF reg) (h : k ∈ keys reg) :
    ∃ w, reg.lookup k = some w ∧ w.conn = k ∧ w.mu = false := by
  obtain ⟨w, h1, h2⟩ := lookup_of_mem_keys reg k h
  exact ⟨w, h1, (hwf.2 _ h2).1, (hwf.2 _ h2).2⟩

theorem setMu_restore (reg : Registry) (k : Conn) (h : ∀ e ∈ reg, e.2.mu = false) :
    setMu (setMu reg k true) k false = reg := by
  unfold setMu
  rw [List.map_map]
  conv_rhs => rw [← List.map_id reg]
  apply List.map_congr_left
  intro e he
  obtain ⟨a, c, m⟩ := e
  have hm : m = false := h _ he
  by_cases hk : a = k <;> simp [hk, hm]

theorem lookup_setMu (reg : Registry) (k : Conn) (b : Bool) :
    (setMu reg k b).lookup k = (reg.lookup k).map (fun w => { w with mu := b }) := by
  induction reg with
  | nil => rfl
  | cons e reg ih =>
    obtain ⟨a, w⟩ := e
    have ih2 : List.lookup k (List.map
        (fun e : Conn × ConnectionWrapper => if e.1 = k then (e.1, { e.2 with mu := b }) else e)
        reg) = (reg.lookup k).map (fun w => { w with mu := b }) := ih
    by_cases hk : a = k
    · subst hk
      simp only [setMu, List.map_cons, if_true, List.lookup_cons, beq_self_eq_true, Option.map_some']
    · have hb : (k == a) = false := by simpa using fun h => hk h.symm
      simp only [setMu, List.map_cons, if_neg hk, List.lookup_cons, hb, ih2]

theorem muHeld_setMu (reg : Registry) (k : Conn) (h : k ∈ keys reg) :
    muHeld (setMu reg k true) k = true := by
  obtain ⟨w, hw, _⟩ := lookup_of_mem_keys reg k h
  simp [muHeld, lookup_setMu, hw]

/-! ## The fan-out pass -/

theorem fanOut_eq (env : Env) (message : Payload) :
    ∀ (order : List Conn) (s : State), WF s.connections →
      (∀ k ∈ order, k ∈ keys s.connections) →
      fanOut env message order s =
        { s with
          trace := s.trace ++ passTrace env message s.trace.length order
          dispatcher :=
            if passFails env message s.trace.length order then .returned else s.dispatcher } := by
  intro order
  induction order with
  | nil => intro s _ _; simp [fanOut, passTrace, passFails]
  | cons k rest ih =>
    intro s hwf hmem
    obtain ⟨w, hl, hc, hm⟩ := lookup_WF s.connections k hwf (hmem k (List.mem_cons_self _ _))
    have hheld := muHeld_setMu s.connections k (hmem k (List.mem_cons_self _ _))
    have hres := setMu_restore s.connections k (fun e he => (hwf.2 e he).2)
    by_cases hf : env.writeErr (s.trace.length + 1) k message = true
    · simp [fanOut, hl, hc, hm, hheld, hres, hf, passTrace, passFails]
    · simp only [Bool.not_eq_true] at hf
      simp only [fanOut, hl, hc, hm, hheld, hres, hf, passTrace, passFails, List.length_append,
        List.length_singleton, Bool.false_eq_true, if_false]
      rw [ih _ (by simpa using hwf) (by simpa using fun k hk => hmem k (List.mem_cons_of_mem _ hk))]
      simp [Nat.add_assoc]

theorem dispatchIter_recv (env : Env) (pick : Bool) (s : State) (message : Payload)
    (rest : List Payload) (hwf : WF s.connections) (hrun : s.dispatcher = .running)
    (hchan : s.messageChan = message :: rest) (hsel : (s.ctxDone && pick) = false) :
    dispatchIter env pick s =
      { s with
        messageChan := rest
        trace := s.trace ++ iterTrace env s message
        dispatcher := if iterFails env s message then .returned else .running } := by
  unfold dispatchIter
  simp only [hrun, hchan, hsel, Bool.false_eq_true, if_false]
  rw [fanOut_eq]
  · simp [iterTrace, iterFails, hrun, List.append_assoc]
  · simpa using hwf
  · intro k hk
    exact (env.rangeOrder_perm _ _).mem_iff.mp hk

theorem passTrace_calm (env : Env) (hok : ∀ t c p, env.writeErr t c p = false)
    (message : Payload) (c : Conn) :
    ∀ (order : List Conn) (t : Nat),
      writesTo c (passTrace env message t order) = List.replicate (order.count c) message := by
  intro order
  induction order with
  | nil => intro t; simp [passTrace, writesTo]
  | cons k rest ih =>
    intro t
    have ih2 := ih (t + 3)
    simp only [writesTo] at ih2
    by_cases hk : k = c
    · subst hk
      simp [passTrace, hok, writesTo, ih2, List.replicate_succ]
    · have hb : (k == c) = false := by simpa using hk
      simp [passTrace, hok, writesTo, ih2, hk, List.count_cons, hb]

theorem passFails_calm (env : Env) (hok : ∀ t c p, env.writeErr t c p = false)
    (message : Payload) :
    ∀ (order : List Conn) (t : Nat), passFails env message t order = false := by
  intro order
  induction order with
  | nil => intro t; rfl
  | cons k rest ih => intro t; simp [passFails, hok, ih]

theorem writesTo_append (c : Conn) (a b : List Ev) :
    writesTo c (a ++ b) = writesTo c a ++ writesTo c b := by
  simp [writesTo, List.filterMap_append]

theorem writesTo_iterTrace_calm (env : Env) (hok : ∀ t c p, env.writeErr t c p = false)
    (s : State) (hwf : WF s.connections) (message : Payload) (c : Conn) :
    writesTo c (iterTrace env s message) = if c ∈ keys s.connections then [message] else [] := by
  have hperm := env.rangeOrder_perm (s.trace.length + 2) (keys s.connections)
  unfold iterTrace
  rw [writesTo_append, passTrace_calm env hok, hperm.count_eq]
  by_cases hc : c ∈ keys s.connections
  · rw [List.count_eq_one_of_mem hwf.1 hc]
    simp [writesTo, hc]
  · rw [List.count_eq_zero_of_not_mem hc]
    simp [writesTo, hc]

theorem run_loops_calm (env : Env) (hok : ∀ t c p, env.writeErr t c p = false) :
    ∀ (msgs : List Payload) (s : State) (picks : List Bool), WF s.connections →
      s.dispatcher = .running → s.ctxDone = false → s.messageChan = msgs →
      picks.length = msgs.length →
      (run env s (picks.map Event.loop)).messageChan = [] ∧
      (run env s (picks.map Event.loop)).dispatcher = .running ∧
      (run env s (picks.map Event.loop)).connections = s.connections ∧
      ∀ c, writesTo c (run env s (picks.map Event.loop)).trace =
        writesTo c s.trace ++ if c ∈ keys s.connections then msgs else [] := by
  intro msgs
  induction msgs with
  | nil =>
    intro s picks _ hrun _ hchan hlen
    have hp : picks = [] := List.length_eq_zero.mp hlen
    subst hp
    simp [run, hchan, hrun]
  | cons m rest ih =>
    intro s picks hwf hrun hctx hchan hlen
    cases picks with
    | nil => simp at hlen
    | cons p ps =>
      have hstep := dispatchIter_recv env p s m rest hwf hrun hchan (by simp [hctx])
      have hfail : iterFails env s m = false := passFails_calm env hok m _ _
      rw [hfail] at hstep
      simp only [Bool.false_eq_true, if_false] at hstep
      have hlen2 : ps.length = rest.length := by simpa using hlen
      have hrun2 : run env s ((p :: ps).map Event.loop) =
          run env (dispatchIter env p s) (ps.map Event.loop) := by
        simp [run, step]
      rw [hrun2, hstep]
      obtain ⟨h1, h2, h3, h4⟩ :=
        ih { s with messageChan := rest, trace := s.trace ++ iterTrace env s m,
                    dispatcher := .running } ps hwf rfl hctx rfl hlen2
      refine ⟨h1, h2, h3, ?_⟩
      intro c
      rw [h4 c]
      simp only [writesTo_append, writesTo_iterTrace_calm env hok s hwf m c]
      by_cases hc : c ∈ keys s.connections <;> simp [hc]

theorem dispatchIter_of_not_running (env : Env) (pick : Bool) (s : State)
    (h : s.dispatcher ≠ .running) : dispatchIter env pick s = s := by
  unfold dispatchIter
  split
  · next hd => exact absurd hd h
  · rfl

theorem dispatchIter_cases (env : Env) (pick : Bool) (s : State) (hwf : WF s.connections) :
    dispatchIter env pick s = s ∨
    (s.dispatcher = .running ∧ s.ctxDone = true ∧ (pick = true ∨ s.messageChan = []) ∧
      dispatchIter env pick s = { s with dispatcher := .returned }) ∨
    ∃ message rest, s.dispatcher = .running ∧ s.messageChan = message :: rest ∧
      dispatchIter env pick s =
        { s with
          messageChan := rest
          trace := s.trace ++ iterTrace env s message
          dispatcher := if iterFails env s message then .returned else .running } := by
  by_cases hrun : s.dispatcher = .running
  · cases hchan : s.messageChan with
    | nil =>
      by_cases hctx : s.ctxDone = true
      · right; left
        refine ⟨hrun, hctx, Or.inr rfl, ?_⟩
        simp [dispatchIter, hrun, hchan, hctx]
      · left
        simp [dispatchIter, hrun, hchan, hctx]
    | cons message rest =>
      by_cases hsel : (s.ctxDone && pick) = true
      · right; left
        simp only [Bool.and_eq_true] at hsel
        refine ⟨hrun, hsel.1, Or.inl hsel.2, ?_⟩
        simp [dispatchIter, hrun, hchan, hsel.1, hsel.2]
      · right; right
        exact ⟨message, rest, hrun, rfl,
          dispatchIter_recv env pick s message rest hwf hrun hchan (by simpa using hsel)⟩
  · left
    exact dispatchIter_of_not_running env pick s hrun

theorem writes_append (a b : List Ev) : writes (a ++ b) = writes a ++ writes b := by
  simp [writes, List.filterMap_append]

theorem step_of_returned (env : Env) (s : State) (e : Event)
    (h : s.dispatcher = .returned) :
    (step env s e).dispatcher = .returned ∧ writes (step env s e).trace = writes s.trace := by
  cases e with
  | send message => exact ⟨h, rfl⟩
  | cancel => exact ⟨h, rfl⟩
  | loop pick =>
    show (dispatchIter env pick s).dispatcher = _ ∧ writes (dispatchIter env pick s).trace = _
    rw [dispatchIter_of_not_running env pick s (by rw [h]; simp)]
    exact ⟨h, rfl⟩
  | tick pick =>
    have ht : dispatchTick env pick s = s := by simp [dispatchTick, h]
    show (dispatchTick env pick s).dispatcher = _ ∧ writes (dispatchTick env pick s).trace = _
    rw [ht]
    exact ⟨h, rfl⟩
  | request up =>
    cases up with
    | none => simp [step, handleRequest, writes_append, writes, h]
    | some conn => simp [step, handleRequest, addConnection, writes_append, writes, h]
  | read conn r =>
    by_cases hr : conn ∈ s.reading
    · cases r with
      | err =>
        simp [step, handleRead, hr, handlerExit, removeConnection, writes_append, writes, h]
      | msg messageType =>
        by_cases ht : messageType = CloseMessage
        · simp [step, handleRead, hr, ht, handlerExit, removeConnection, writes_append, writes, h]
        · simp [step, handleRead, hr, ht, writes_append, writes, h]
    · simp [step, handleRead, hr, h]

theorem run_of_returned (env : Env) :
    ∀ (es : List Event) (s : State), s.dispatcher = .returned →
      (run env s es).dispatcher = .returned ∧ writes (run env s es).trace = writes s.trace := by
  intro es
  induction es with
  | nil => intro s h; exact ⟨h, rfl⟩
  | cons e es ih =>
    intro s h
    obtain ⟨h1, h2⟩ := step_of_returned env s e h
    obtain ⟨h3, h4⟩ := ih (step env s e) h1
    exact ⟨by simpa [run] using h3, by simpa [run] using h4.trans h2⟩

theorem passTrace_failed (env : Env) (message : Payload) :
    ∀ (order : List Conn) (t : Nat),
      (∃ c ty d h, Ev.writeMessage c ty d h true ∈ passTrace env message t order) →
      passFails env message t order = true ∧
      ∃ pre c, passTrace env message t order =
        pre ++ [.writeMessage c TextMessage message true true, .log .error .writeError,
          .muUnlock c] := by
  intro order
  induction order with
  | nil => intro t h; simp [passTrace] at h
  | cons k rest ih =>
    intro t h
    by_cases hf : env.writeErr (t + 1) k message = true
    · refine ⟨by simp [passFails, hf], [.muLock k], k, ?_⟩
      simp [passTrace, hf]
    · simp only [Bool.not_eq_true] at hf
      obtain ⟨c, ty, d, hh, hmem⟩ := h
      have hmem2 : Ev.writeMessage c ty d hh true ∈ passTrace env message (t + 3) rest := by
        simpa [passTrace, hf] using hmem
      obtain ⟨h1, pre, c2, h2⟩ := ih (t + 3) ⟨c, ty, d, hh, hmem2⟩
      refine ⟨by simp [passFails, hf, h1],
        [.muLock k, .writeMessage k TextMessage message true false, .muUnlock k] ++ pre, c2, ?_⟩
      simp [passTrace, hf, h2]

theorem guardOk_passTrace (env : Env) (message : Payload) :
    ∀ (order : List Conn) (t : Nat), guardOk .free (passTrace env message t order) = true := by
  intro order
  induction order with
  | nil => intro t; rfl
  | cons k rest ih =>
    intro t
    by_cases hf : env.writeErr (t + 1) k message = true
    · simp [passTrace, hf, guardOk]
    · simp only [Bool.not_eq_true] at hf
      simp [passTrace, hf, guardOk, ih]

theorem keys_mapStore (reg : Registry) (c : Conn) (w : ConnectionWrapper) :
    keys (mapStore reg c w) = if c ∈ keys reg then keys reg else keys reg ++ [c] := by
  unfold mapStore
  by_cases h : c ∈ keys reg
  · rw [if_pos h, if_pos h]
    simp only [keys, List.map_map]
    apply List.map_congr_left
    intro e _
    by_cases he : e.1 = c <;> simp [he]
  · rw [if_neg h, if_neg h]
    simp [keys]

theorem mem_mapStore (reg : Registry) (c : Conn) (w : ConnectionWrapper)
    (e : Conn × ConnectionWrapper) (he : e ∈ mapStore reg c w) : e ∈ reg ∨ e = (c, w) := by
  unfold mapStore at he
  by_cases h : c ∈ keys reg
  · simp only [h, if_true, List.mem_map] at he
    obtain ⟨a, ha, rfl⟩ := he
    by_cases hac : a.1 = c
    · right; simp [hac]
    · left; simpa [hac] using ha
  · simp only [h, if_false, List.mem_append, List.mem_singleton] at he
    exact he

theorem RegInv_mapStore (lk : Option Conn) (reg : Registry) (c : Conn) (h : RegInv lk reg) :
    RegInv lk (mapStore reg c { conn := c, mu := false }) := by
  constructor
  · rw [keys_mapStore]
    by_cases hc : c ∈ keys reg
    · simpa [hc] using h.1
    · simp only [hc, if_false]
      exact List.nodup_append.mpr ⟨h.1, List.nodup_singleton c, by simpa using hc⟩
  · intro e he
    rcases mem_mapStore reg c _ e he with he | rfl
    · exact h.2 e he
    · exact ⟨rfl, fun hm => by simp at hm⟩

theorem mem_keys_mapDelete (reg : Registry) (c k : Conn) :
    k ∈ keys (mapDelete reg c) ↔ k ∈ keys reg ∧ k ≠ c := by
  simp only [keys, mapDelete, List.mem_map, List.mem_filter, decide_eq_true_eq]
  constructor
  · rintro ⟨e, ⟨he, hne⟩, rfl⟩
    exact ⟨⟨e, he, rfl⟩, hne⟩
  · rintro ⟨⟨e, he, rfl⟩, hne⟩
    exact ⟨e, ⟨he, hne⟩, rfl⟩

theorem RegInv_mapDelete (lk : Option Conn) (reg : Registry) (c : Conn) (h : RegInv lk reg) :
    RegInv lk (mapDelete reg c) := by
  constructor
  · exact h.1.sublist ((List.filter_sublist _).map _)
  · intro e he
    exact h.2 e (List.mem_of_mem_filter he)

theorem dispatchIter_connections (env : Env) (pick : Bool) (s : State) (hwf : WF s.connections) :
    (dispatchIter env pick s).connections = s.connections := by
  rcases dispatchIter_cases env pick s hwf with h | ⟨_, _, _, h⟩ | ⟨m, rest, _, _, h⟩ <;> rw [h]

theorem handleRead_exit (c : Conn) (r : ReadResult) (s : State) (hreading : c ∈ s.reading)
    (hterm : r = .err ∨ r = .msg CloseMessage) :
    handleRead c r s =
      { s with
        connections := mapDelete s.connections c
        reading := s.reading.erase c
        closed := c :: s.closed
        trace := s.trace ++
          [.readMessage c r,
            .log .trace (if r = .err then .clientDisconnected else .closeFrame),
            .mutexLock, .mapDelete c, .mutexUnlock, .close c] } := by
  rcases hterm with rfl | rfl
  · simp [handleRead, hreading, handlerExit, removeConnection]
  · simp [handleRead, hreading, handlerExit, removeConnection]

theorem run_append (env : Env) (s : State) (a b : List Event) :
    run env s (a ++ b) = run env (run env s a) b := by
  simp [run, List.foldl_append]

theorem run_reads_live (env : Env) (c : Conn) :
    ∀ (pre : List ReadResult) (s : State), c ∈ s.reading →
      (∀ x ∈ pre, ∃ t, x = ReadResult.msg t ∧ t ≠ CloseMessage) →
      run env s (pre.map (Event.read c)) =
        { s with trace := s.trace ++ pre.map (Ev.readMessage c) } := by
  intro pre
  induction pre with
  | nil => intro s _ _; simp [run]
  | cons x pre ih =>
    intro s hr hpre
    obtain ⟨t, rfl, ht⟩ := hpre x (List.mem_cons_self _ _)
    have h1 : step env s (.read c (.msg t)) =
        { s with trace := s.trace ++ [.readMessage c (.msg t)] } := by
      simp [step, handleRead, hr, ht]
    have h2 : run env s ((ReadResult.msg t :: pre).map (Event.read c)) =
        run env (step env s (.read c (.msg t))) (pre.map (Event.read c)) := by
      simp [run]
    rw [h2, h1, ih { s with trace := s.trace ++ [.readMessage c (.msg t)] } hr
      (fun y hy => hpre y (List.mem_cons_of_mem _ hy))]
    simp

theorem run_reads_done (env : Env) (c : Conn) :
    ∀ (post : List ReadResult) (s : State), c ∉ s.reading →
      run env s (post.map (Event.read c)) = s := by
  intro post
  induction post with
  | nil => intro s _; rfl
  | cons x post ih =>
    intro s hr
    have h1 : step env s (.read c x) = s := by simp [step, handleRead, hr]
    have h2 : run env s ((x :: post).map (Event.read c)) =
        run env (step env s (.read c x)) (post.map (Event.read c)) := by
      simp [run]
    rw [h2, h1, ih s hr]

theorem fanOut_no_mutexLock (env : Env) (message : Payload) :
    ∀ (order : List Conn) (s : State),
      ∃ evs, (fanOut env message order s).trace = s.trace ++ evs ∧ Ev.mutexLock ∉ evs := by
  intro order
  induction order with
  | nil => intro s; exact ⟨[], by simp [fanOut], by simp⟩
  | cons k rest ih =>
    intro s
    cases hl : s.connections.lookup k with
    | none =>
      obtain ⟨evs, h1, h2⟩ := ih s
      exact ⟨evs, by simpa [fanOut, hl] using h1, h2⟩
    | some w =>
      by_cases hmu : w.mu = true
      · exact ⟨[], by simp [fanOut, hl, hmu], by simp⟩
      · by_cases hf : env.writeErr (s.trace.length + 1) w.conn message = true
        · exact ⟨[.muLock k,
            .writeMessage w.conn TextMessage message (muHeld (setMu s.connections k true) k) true,
            .log .error .writeError, .muUnlock k], by simp [fanOut, hl, hmu, hf], by simp⟩
        · obtain ⟨evs, h1, h2⟩ := ih
            { s with
              connections := setMu (setMu s.connections k true) k false
              trace := s.trace ++ [.muLock k] ++
                [.writeMessage w.conn TextMessage message (muHeld (setMu s.connections k true) k)
                  false] ++ [.muUnlock k] }
          refine ⟨[.muLock k,
            .writeMessage w.conn TextMessage message (muHeld (setMu s.connections k true) k) false,
            .muUnlock k] ++ evs, ?_, by simpa using h2⟩
          simp only [Bool.not_eq_true] at hmu hf
          simp only [fanOut, hl, hmu, hf, List.length_append, List.length_singleton,
            Bool.false_eq_true, if_false]
          rw [h1]
          simp

/-! ## A whole iteration is a sequence of ticks -/

theorem run_replicate_succ (env : Env) (s : State) (e : Event) (n : Nat) :
    run env s (List.replicate (n + 1) e) = run env (step env s e) (List.replicate n e) := by
  simp [run, List.replicate_succ]

theorem muHeld_of_lookup (reg : Registry) (k : Conn) (w : ConnectionWrapper)
    (h : reg.lookup k = some w) : muHeld reg k = w.mu := by
  simp [muHeld, h]

theorem fanOut_eq_ticks (env : Env) (message : Payload) (pick : Bool) :
    ∀ (order : List Conn) (s : State), s.dispatcher = .ranging message order →
      ∃ n, run env s (List.replicate n (Event.tick pick)) =
        fanOut env message order { s with dispatcher := .running } := by
  intro order
  induction order with
  | nil =>
    intro s h
    exact ⟨1, by simp [run, step, dispatchTick, h, fanOut]⟩
  | cons k rest ih =>
    intro s h
    cases hl : s.connections.lookup k with
    | none =>
      obtain ⟨n, hn⟩ := ih { s with dispatcher := .ranging message rest } rfl
      refine ⟨n + 1, ?_⟩
      have h1 : step env s (.tick pick) = { s with dispatcher := .ranging message rest } := by
        simp [step, dispatchTick, h, hl]
      rw [run_replicate_succ, h1, hn]
      simp [fanOut, hl]
    | some w =>
      have h1 : step env s (.tick pick) = { s with dispatcher := .fetched message rest k w } := by
        simp [step, dispatchTick, h, hl]
      have hheld := muHeld_of_lookup s.connections k w hl
      by_cases hmu : w.mu = true
      · refine ⟨2, ?_⟩
        rw [run_replicate_succ, h1, run_replicate_succ]
        simp [run, step, dispatchTick, hheld, hmu, fanOut, hl]
      · simp only [Bool.not_eq_true] at hmu
        have hheld2 : muHeld (setMu s.connections k true) k = true := by
          simp [muHeld, lookup_setMu, hl]
        have h2 : step env { s with dispatcher := .fetched message rest k w } (.tick pick) =
            { s with
              connections := setMu s.connections k true
              trace := s.trace ++ [.muLock k]
              dispatcher := .locked message rest k { w with mu := true } } := by
          simp [step, dispatchTick, hheld, hmu]
        have h3 : step env
            { s with
              connections := setMu s.connections k true
              trace := s.trace ++ [.muLock k]
              dispatcher := .locked message rest k { w with mu := true } } (.tick pick) =
            { s with
              connections := setMu s.connections k true
              trace := s.trace ++ [.muLock k] ++
                [.writeMessage w.conn TextMessage message true
                  (env.writeErr (s.trace.length + 1) w.conn message)]
              dispatcher := .wrote message rest k { w with mu := true }
                (env.writeErr (s.trace.length + 1) w.conn message) } := by
          simp [step, dispatchTick]
        by_cases hf : env.writeErr (s.trace.length + 1) w.conn message = true
        · refine ⟨4, ?_⟩
          rw [run_replicate_succ, h1, run_replicate_succ, h2, run_replicate_succ, h3,
            run_replicate_succ]
          simp [run, step, dispatchTick, hf, fanOut, hl, hmu, hheld2]
        · simp only [Bool.not_eq_true] at hf
          obtain ⟨n, hn⟩ := ih
            { s with
              connections := setMu (setMu s.connections k true) k false
              trace := s.trace ++ [.muLock k] ++
                [.writeMessage w.conn TextMessage message true false] ++ [.muUnlock k]
              dispatcher := .ranging message rest } rfl
          refine ⟨n + 4, ?_⟩
          have h4 : step env
              { s with
                connections := setMu s.connections k true
                trace := s.trace ++ [.muLock k] ++
                  [.writeMessage w.conn TextMessage message true
                    (env.writeErr (s.trace.length + 1) w.conn message)]
                dispatcher := .wrote message rest k { w with mu := true }
                  (env.writeErr (s.trace.length + 1) w.conn message) } (.tick pick) =
              { s with
                connections := setMu (setMu s.connections k true) k false
                trace := s.trace ++ [.muLock k] ++
                  [.writeMessage w.conn TextMessage message true false] ++ [.muUnlock k]
                dispatcher := .ranging message rest } := by
            simp [step, dispatchTick, hf]
          rw [show n + 4 = n + 1 + 1 + 1 + 1 from rfl, run_replicate_succ, h1,
            run_replicate_succ, h2, run_replicate_succ, h3, run_replicate_succ, h4, hn]
          simp [fanOut, hl, hmu, hheld2, hf]

theorem loop_eq_ticks (env : Env) (pick : Bool) (s : State) (h : s.dispatcher = .running) :
    ∃ n, run env s (List.replicate n (Event.tick pick)) = step env s (.loop pick) := by
  have hstep : step env s (.loop pick) = dispatchIter env pick s := rfl
  rw [hstep]
  cases hchan : s.messageChan with
  | nil =>
    by_cases hctx : s.ctxDone = true
    · exact ⟨1, by simp [run, step, dispatchTick, dispatchIter, h, hchan, hctx]⟩
    · exact ⟨0, by simp [run, dispatchIter, h, hchan, hctx]⟩
  | cons m rest =>
    by_cases hsel : (s.ctxDone && pick) = true
    · exact ⟨1, by simp [run, step, dispatchTick, dispatchIter, h, hchan, hsel]⟩
    · obtain ⟨n, hn⟩ := fanOut_eq_ticks env m pick
        (env.rangeOrder (s.trace ++ [Ev.mapLen s.connections.length, Ev.log .debug .wsWrite]).length
          (keys s.connections))
        { s with
          messageChan := rest
          trace := s.trace ++ [Ev.mapLen s.connections.length, Ev.log .debug .wsWrite] ++
            [Ev.mapRange (env.rangeOrder
              (s.trace ++ [Ev.mapLen s.connections.length, Ev.log .debug .wsWrite]).length
              (keys s.connections))]
          dispatcher := .ranging m (env.rangeOrder
            (s.trace ++ [Ev.mapLen s.connections.length, Ev.log .debug .wsWrite]).length
            (keys s.connections)) } rfl
      refine ⟨n + 1, ?_⟩
      have h1 : step env s (.tick pick) =
          { s with
            messageChan := rest
            trace := s.trace ++ [Ev.mapLen s.connections.length, Ev.log .debug .wsWrite] ++
              [Ev.mapRange (env.rangeOrder
                (s.trace ++ [Ev.mapLen s.connections.length, Ev.log .debug .wsWrite]).length
                (keys s.connections))]
            dispatcher := .ranging m (env.rangeOrder
              (s.trace ++ [Ev.mapLen s.connections.length, Ev.log .debug .wsWrite]).length
              (keys s.connections)) } := by
        simp [step, dispatchTick, h, hchan, hsel]
      rw [run_replicate_succ, h1, hn]
      simp [dispatchIter, h, hchan, hsel]

/-! ## Invariants of the interleaved server -/

theorem keys_setMu (reg : Registry) (k : Conn) (b : Bool) : keys (setMu reg k b) = keys reg := by
  simp only [keys, setMu, List.map_map]
  apply List.map_congr_left
  intro e _
  by_cases he : e.1 = k <;> simp [he]

theorem mem_setMu (reg : Registry) (k : Conn) (b : Bool) (e : Conn × ConnectionWrapper)
    (he : e ∈ setMu reg k b) :
    ∃ e0 ∈ reg, e.1 = e0.1 ∧ e.2.conn = e0.2.conn ∧ e.2.mu = if e0.1 = k then b else e0.2.mu := by
  simp only [setMu, List.mem_map] at he
  obtain ⟨e0, he0, rfl⟩ := he
  refine ⟨e0, he0, ?_⟩
  by_cases h : e0.1 = k <;> simp [h]

theorem mem_of_lookup (reg : Registry) (k : Conn) (w : ConnectionWrapper)
    (h : reg.lookup k = some w) : (k, w) ∈ reg := by
  induction reg with
  | nil => simp at h
  | cons e reg ih =>
    obtain ⟨a, w2⟩ := e
    by_cases hk : k = a
    · subst hk
      simp only [List.lookup_cons, beq_self_eq_true, Option.some.injEq] at h
      subst h
      exact List.mem_cons_self _ _
    · have hb : (k == a) = false := by simpa using hk
      simp only [List.lookup_cons, hb] at h
      exact List.mem_cons_of_mem _ (ih h)

theorem RegInv_of_WF (lk : Option Conn) (reg : Registry) (h : WF reg) : RegInv lk reg :=
  ⟨h.1, fun e he => ⟨(h.2 e he).1, fun hm => by rw [(h.2 e he).2] at hm; simp at hm⟩⟩

theorem WF_of_RegInv (reg : Registry) (h : RegInv none reg) : WF reg :=
  ⟨h.1, fun e he => ⟨(h.2 e he).1, by
    cases hm : e.2.mu with
    | false => rfl
    | true => exact absurd ((h.2 e he).2 hm) (by simp)⟩⟩

theorem RegInv_lock (reg : Registry) (k : Conn) (h : RegInv none reg) :
    RegInv (some k) (setMu reg k true) := by
  have hwf := WF_of_RegInv reg h
  constructor
  · rw [keys_setMu]; exact h.1
  · intro e he
    obtain ⟨e0, he0, h1, h2, h3⟩ := mem_setMu reg k true e he
    refine ⟨by rw [h1, h2]; exact (hwf.2 e0 he0).1, fun hm => ?_⟩
    by_cases hk : e0.1 = k
    · rw [h1, hk]
    · rw [h3, if_neg hk, (hwf.2 e0 he0).2] at hm
      simp at hm

theorem RegInv_unlock (lk : Option Conn) (reg : Registry) (k : Conn) (h : RegInv (some k) reg) :
    RegInv lk (setMu reg k false) := by
  constructor
  · rw [keys_setMu]; exact h.1
  · intro e he
    obtain ⟨e0, he0, h1, h2, h3⟩ := mem_setMu reg k false e he
    refine ⟨by rw [h1, h2]; exact (h.2 e0 he0).1, fun hm => ?_⟩
    by_cases hk : e0.1 = k
    · rw [h3, if_pos hk] at hm
      simp at hm
    · rw [h3, if_neg hk] at hm
      have := (h.2 e0 he0).2 hm
      simp only [Option.some.injEq] at this
      exact absurd this.symm hk

theorem Inv_tick (env : Env) (pick : Bool) (s : State) (h : Inv s) :
    Inv (dispatchTick env pick s) := by
  have hInv : RegInv (lockedKey s.dispatcher) s.connections := h
  unfold dispatchTick
  cases hd : s.dispatcher with
  | running =>
    rw [hd] at hInv
    have hany : ∀ lk, RegInv lk s.connections :=
      fun lk => RegInv_of_WF lk _ (WF_of_RegInv _ hInv)
    simp only []
    split
    · split
      · exact hany _
      · exact h
    · split
      · exact hany _
      · exact hany _
  | ranging message todo =>
    rw [hd] at hInv
    have hany : ∀ lk, RegInv lk s.connections :=
      fun lk => RegInv_of_WF lk _ (WF_of_RegInv _ hInv)
    simp only []
    split
    · exact hany _
    · split
      · exact hany _
      · exact hany _
  | fetched message rest k w =>
    rw [hd] at hInv
    simp only []
    split
    · exact RegInv_of_WF _ _ (WF_of_RegInv _ hInv)
    · exact RegInv_lock _ k hInv
  | locked message rest k w =>
    rw [hd] at hInv
    exact hInv
  | wrote message rest k w failed =>
    rw [hd] at hInv
    simp only []
    split
    · exact RegInv_unlock _ _ k hInv
    · exact RegInv_unlock _ _ k hInv
  | returned => exact h
  | blocked => exact h

theorem ticks_induction (env : Env) (P : State → Prop)
    (htick : ∀ s p, P s → P (dispatchTick env p s)) (pick : Bool) :
    ∀ (n : Nat) (s : State), P s → P (run env s (List.replicate n (Event.tick pick))) := by
  intro n
  induction n with
  | zero => intro s h; exact h
  | succ n ih =>
    intro s h
    rw [run_replicate_succ]
    exact ih _ (htick s pick h)

theorem loop_induction (env : Env) (P : State → Prop)
    (htick : ∀ s p, P s → P (dispatchTick env p s)) (pick : Bool) (s : State) (h : P s) :
    P (dispatchIter env pick s) := by
  by_cases hrun : s.dispatcher = .running
  · obtain ⟨n, hn⟩ := loop_eq_ticks env pick s hrun
    have hn2 : run env s (List.replicate n (Event.tick pick)) = dispatchIter env pick s := hn
    rw [← hn2]
    exact ticks_induction env P htick pick n s h
  · rw [dispatchIter_of_not_running env pick s hrun]
    exact h

theorem Inv_step (env : Env) (s : State) (e : Event) (h : Inv s) : Inv (step env s e) := by
  cases e with
  | send message => exact h
  | cancel => exact h
  | loop pick => exact loop_induction env Inv (fun s p hs => Inv_tick env p s hs) pick s h
  | tick pick => exact Inv_tick env pick s h
  | request up =>
    cases up with
    | none => exact h
    | some conn => exact RegInv_mapStore _ s.connections conn h
  | read conn r =>
    have hdel : RegInv (lockedKey s.dispatcher) (mapDelete s.connections conn) :=
      RegInv_mapDelete _ s.connections conn h
    by_cases hr : conn ∈ s.reading
    · cases r with
      | err => simpa [step, handleRead, hr, handlerExit, removeConnection, Inv] using hdel
      | msg messageType =>
        by_cases ht : messageType = CloseMessage
        · simpa [step, handleRead, hr, ht, handlerExit, removeConnection, Inv] using hdel
        · simpa [step, handleRead, hr, ht, Inv] using h
    · simpa [step, handleRead, hr] using h

theorem Inv_run (env : Env) :
    ∀ (es : List Event) (s : State), Inv s → Inv (run env s es) := by
  intro es
  induction es with
  | nil => intro s h; exact h
  | cons e es ih => intro s h; exact ih (step env s e) (Inv_step env s e h)

theorem WF_run (env : Env) (es : List Event) (s : State) (hwf : WF s.connections)
    (hfree : lockedKey (run env s es).dispatcher = none) : WF (run env s es).connections := by
  have h : Inv (run env s es) := Inv_run env es s (RegInv_of_WF _ _ hwf)
  have h2 : RegInv (lockedKey (run env s es).dispatcher) (run env s es).connections := h
  rw [hfree] at h2
  exact WF_of_RegInv _ h2

theorem keyed_setMu (reg : Registry) (k : Conn) (b : Bool)
    (h : ∀ e ∈ reg, e.2.conn = e.1) : ∀ e ∈ setMu reg k b, e.2.conn = e.1 := by
  intro e he
  obtain ⟨e0, he0, h1, h2, _⟩ := mem_setMu reg k b e he
  rw [h1, h2]
  exact h e0 he0

theorem Released_tick (env : Env) (pick : Bool) (s : State) (c : Conn) (h : Released c s) :
    Released c (dispatchTick env pick s) ∧
    writesTo c (dispatchTick env pick s).trace = writesTo c s.trace := by
  obtain ⟨hk, hc, hh⟩ := h
  unfold dispatchTick
  cases hd : s.dispatcher with
  | running =>
    simp only []
    split
    · split
      · exact ⟨⟨hk, hc, by simp [inHand]⟩, rfl⟩
      · exact ⟨⟨hk, hc, hh⟩, rfl⟩
    · split
      · exact ⟨⟨hk, hc, by simp [inHand]⟩, rfl⟩
      · exact ⟨⟨hk, hc, by simp [inHand]⟩, by simp [writesTo_append, writesTo]⟩
  | ranging message todo =>
    cases todo with
    | nil => exact ⟨⟨hk, hc, by simp [inHand]⟩, rfl⟩
    | cons k rest =>
      simp only []
      cases hl : s.connections.lookup k with
      | none => exact ⟨⟨hk, hc, by simp [inHand]⟩, rfl⟩
      | some w =>
        have hmem := mem_of_lookup _ _ _ hl
        have hwk : w.conn = k := hk _ hmem
        have hkk : k ∈ keys s.connections := List.mem_map.mpr ⟨(k, w), hmem, rfl⟩
        refine ⟨⟨hk, hc, ?_⟩, rfl⟩
        intro w2 hw2
        simp only [inHand, Option.some.injEq] at hw2
        subst hw2
        intro hcc
        exact hc (by rw [← hcc, hwk]; exact hkk)
  | fetched message rest k w =>
    have hw : w.conn ≠ c := hh w (by rw [hd]; rfl)
    simp only []
    split
    · exact ⟨⟨hk, hc, by simp [inHand]⟩, rfl⟩
    · refine ⟨⟨keyed_setMu _ k true hk, by rw [keys_setMu]; exact hc, ?_⟩,
        by simp [writesTo_append, writesTo]⟩
      intro w2 hw2
      simp only [inHand, Option.some.injEq] at hw2
      subst hw2
      exact hw
  | locked message rest k w =>
    have hw : w.conn ≠ c := hh w (by rw [hd]; rfl)
    refine ⟨⟨hk, hc, ?_⟩, by simp [writesTo_append, writesTo, hw]⟩
    intro w2 hw2
    simp only [inHand, Option.some.injEq] at hw2
    subst hw2
    exact hw
  | wrote message rest k w failed =>
    simp only []
    split
    · exact ⟨⟨keyed_setMu _ k false hk, by rw [keys_setMu]; exact hc, by simp [inHand]⟩,
        by simp [writesTo_append, writesTo]⟩
    · exact ⟨⟨keyed_setMu _ k false hk, by rw [keys_setMu]; exact hc, by simp [inHand]⟩,
        by simp [writesTo_append, writesTo]⟩
  | returned => exact ⟨⟨hk, hc, hh⟩, rfl⟩
  | blocked => exact ⟨⟨hk, hc, hh⟩, rfl⟩

theorem Released_step (env : Env) (s : State) (e : Event) (c : Conn) (h : Released c s)
    (hne : e ≠ .request (some c)) :
    Released c (step env s e) ∧ writesTo c (step env s e).trace = writesTo c s.trace := by
  cases e with
  | send message => exact ⟨h, rfl⟩
  | cancel => exact ⟨h, rfl⟩
  | loop pick =>
    exact loop_induction env
      (fun s2 => Released c s2 ∧ writesTo c s2.trace = writesTo c s.trace)
      (fun s2 p hs => ⟨(Released_tick env p s2 c hs.1).1,
        (Released_tick env p s2 c hs.1).2.trans hs.2⟩) pick s ⟨h, rfl⟩
  | tick pick => exact Released_tick env pick s c h
  | request up =>
    cases up with
    | none => exact ⟨h, by simp [step, handleRequest, writesTo_append, writesTo]⟩
    | some conn =>
      have hcc : c ≠ conn := fun hx => hne (by rw [hx])
      obtain ⟨hk, hc, hh⟩ := h
      refine ⟨⟨?_, ?_, hh⟩, by simp [step, handleRequest, addConnection, writesTo_append, writesTo]⟩
      · intro e he
        rcases mem_mapStore s.connections conn _ e he with he | rfl
        · exact hk e he
        · rfl
      · show c ∉ keys (mapStore s.connections conn { conn := conn, mu := false })
        rw [keys_mapStore]
        by_cases hx : conn ∈ keys s.connections
        · simpa [hx] using hc
        · simp [hx, hc, hcc]
  | read conn r =>
    obtain ⟨hk, hc, hh⟩ := h
    have hdel : Released c { s with connections := mapDelete s.connections conn } :=
      ⟨fun e he => hk e (List.mem_of_mem_filter he),
        fun hx => hc ((mem_keys_mapDelete _ _ _).mp hx).1, hh⟩
    by_cases hr : conn ∈ s.reading
    · cases r with
      | err =>
        exact ⟨by simpa [step, handleRead, hr, handlerExit, removeConnection, Released] using hdel,
          by simp [step, handleRead, hr, handlerExit, removeConnection, writesTo_append, writesTo]⟩
      | msg messageType =>
        by_cases ht : messageType = CloseMessage
        · exact ⟨by
            simpa [step, handleRead, hr, ht, handlerExit, removeConnection, Released] using hdel,
            by simp [step, handleRead, hr, ht, handlerExit, removeConnection, writesTo_append,
              writesTo]⟩
        · have hs : step env s (.read conn (.msg messageType)) =
              { s with trace := s.trace ++ [.readMessage conn (.msg messageType)] } := by
            simp [step, handleRead, hr, ht]
          rw [hs]
          exact ⟨⟨hk, hc, hh⟩, by simp [writesTo_append, writesTo]⟩
    · have hs : step env s (.read conn r) = s := by simp [step, handleRead, hr]
      rw [hs]
      exact ⟨⟨hk, hc, hh⟩, rfl⟩

theorem Released_run (env : Env) (c : Conn) :
    ∀ (es : List Event) (s : State), Released c s →
      (∀ e ∈ es, e ≠ Event.request (some c)) →
      Released c (run env s es) ∧ writesTo c (run env s es).trace = writesTo c s.trace := by
  intro es
  induction es with
  | nil => intro s h _; exact ⟨h, rfl⟩
  | cons e es ih =>
    intro s h hne
    obtain ⟨h1, h2⟩ := Released_step env s e c h (hne e (List.mem_cons_self _ _))
    obtain ⟨h3, h4⟩ := ih (step env s e) h1 (fun e2 he2 => hne e2 (List.mem_cons_of_mem _ he2))
    exact ⟨h3, h4.trans h2⟩

/-- C1: dispatch loop, happy path.  From any state whose registry is well
formed, with the dispatch goroutine in its loop, the context not cancelled and
no write ever failing, as many loop iterations as there are messages on the
channel (and nothing else in between) empty the channel, leave the goroutine in
its loop and the registry as it was, and add to the writes of every registered
connection exactly the messages of the channel, in channel order and
unchanged; connections that are not registered get nothing. -/
theorem dispatch_happy_path (env : Env) (s : State) (picks : List Bool)
    (hwf : WF s.connections) (hrun : s.dispatcher = .running) (hctx : s.ctxDone = false)
    (hok : ∀ t c p, env.writeErr t c p = false)
    (hlen : picks.length = s.messageChan.length) :
    (run env s (picks.map Event.loop)).messageChan = [] ∧
    (run env s (picks.map Event.loop)).dispatcher = .running ∧
    (run env s (picks.map Event.loop)).connections = s.connections ∧
    (∀ c ∈ keys s.connections,
      writesTo c (run env s (picks.map Event.loop)).trace = writesTo c s.trace ++ s.messageChan) ∧
    (∀ c, c ∉ keys s.connections →
      writesTo c (run env s (picks.map Event.loop)).trace = writesTo c s.trace) := by
  obtain ⟨h1, h2, h3, h4⟩ := run_loops_calm env hok s.messageChan s picks hwf hrun hctx rfl hlen
  refine ⟨h1, h2, h3, ?_, ?_⟩
  · intro c hc
    rw [h4 c, if_pos hc]
  · intro c hc
    rw [h4 c, if_neg hc, List.append_nil]

/-- Witness of C1 with three clients and one message. -/
theorem dispatch_happy_path_witness :
    WF threeClients.connections ∧
    writesTo 2 (run Env.calm threeClients ([false].map Event.loop)).trace =
      writesTo 2 threeClients.trace ++ threeClients.messageChan :=
  ⟨by decide,
    (dispatch_happy_path Env.calm threeClients [false] (by decide) (by decide) (by decide)
      (fun _ _ _ => rfl) (by decide)).2.2.2.1 2 (by decide)⟩

/-- C3: legacy abort on a write failure.  When a write fails during a loop
iteration (on a well-formed registry), that write is the last one of the
iteration (only the error log and the release of the write guard follow it),
the dispatch goroutine has returned, the registry is what it was before the
iteration, and whatever happens afterwards the goroutine stays returned, no
further write is performed to any connection, and a further loop step changes
nothing. -/
theorem write_failure_aborts_loop (env : Env) (s : State) (pick : Bool) (es : List Event)
    (hwf : WF s.connections)
    (hfail : ∃ c ty d h,
      Ev.writeMessage c ty d h true ∈ (step env s (.loop pick)).trace.drop s.trace.length) :
    (step env s (.loop pick)).dispatcher = .returned ∧
    (step env s (.loop pick)).connections = s.connections ∧
    (∃ pre c d, (step env s (.loop pick)).trace =
      s.trace ++ pre ++ [.writeMessage c TextMessage d true true, .log .error .writeError,
        .muUnlock c]) ∧
    (run env (step env s (.loop pick)) es).dispatcher = .returned ∧
    writes (run env (step env s (.loop pick)) es).trace = writes (step env s (.loop pick)).trace ∧
    ∀ p, step env (run env (step env s (.loop pick)) es) (.loop p) =
      run env (step env s (.loop pick)) es := by
  have hstep : step env s (.loop pick) = dispatchIter env pick s := rfl
  rw [hstep] at hfail ⊢
  rcases dispatchIter_cases env pick s hwf with h | ⟨_, _, _, h⟩ | ⟨m, rest, hrun, hchan, h⟩
  · rw [h] at hfail; simp at hfail
  · rw [h] at hfail; simp at hfail
  · rw [h] at hfail
    simp only [List.drop_left] at hfail
    have hpass : ∃ c ty d hh, Ev.writeMessage c ty d hh true ∈
        passTrace env m (s.trace.length + 3)
          (env.rangeOrder (s.trace.length + 2) (keys s.connections)) := by
      obtain ⟨c, ty, d, hh, hmem⟩ := hfail
      exact ⟨c, ty, d, hh, by simpa [iterTrace] using hmem⟩
    obtain ⟨hf, pre, c, hshape⟩ := passTrace_failed env m _ _ hpass
    have hf2 : iterFails env s m = true := hf
    rw [hf2] at h
    simp only [if_true] at h
    have hd : (dispatchIter env pick s).dispatcher = .returned := by rw [h]
    obtain ⟨h1, h2⟩ := run_of_returned env es _ hd
    refine ⟨hd, by rw [h], ?_, h1, h2, ?_⟩
    · refine ⟨[.mapLen s.connections.length, .log .debug .wsWrite,
        .mapRange (env.rangeOrder (s.trace.length + 2) (keys s.connections))] ++ pre, c, m, ?_⟩
      rw [h]
      simp [iterTrace, hshape]
    · intro p
      exact dispatchIter_of_not_running env p _ (by rw [h1]; simp)

/-- Witness of C3: three clients, the write to the first one visited fails. -/
theorem write_failure_aborts_loop_witness :
    WF threeClients.connections ∧
    writes (run (Env.failing 1) (step (Env.failing 1) threeClients (.loop false))
      [.send pong, .loop false]).trace =
      writes (step (Env.failing 1) threeClients (.loop false)).trace :=
  ⟨by decide,
    (write_failure_aborts_loop (Env.failing 1) threeClients false [.send pong, .loop false]
      (by decide) ⟨1, TextMessage, ping, true, by decide⟩).2.2.2.2.1⟩

/-- C8, as the code has it: when the `select` takes the `ctx.Done()` case
(always possible once the context is cancelled, forced when no message is
unread) the goroutine returns and nothing else changes: the unread messages
stay on the channel, nothing is written, the registry and the connections are
untouched.  From then on, whatever happens, it stays returned, no write is
performed to any connection and a loop step changes nothing. -/
theorem cancel_exit (env : Env) (s : State) (pick : Bool) (es : List Event)
    (hrun : s.dispatcher = .running) (hctx : s.ctxDone = true)
    (hsel : pick = true ∨ s.messageChan = []) :
    step env s (.loop pick) = { s with dispatcher := .returned } ∧
    (run env (step env s (.loop pick)) es).dispatcher = .returned ∧
    writes (run env (step env s (.loop pick)) es).trace = writes s.trace ∧
    ∀ p, step env (run env (step env s (.loop pick)) es) (.loop p) =
      run env (step env s (.loop pick)) es := by
  have h : step env s (.loop pick) = { s with dispatcher := .returned } := by
    show dispatchIter env pick s = _
    unfold dispatchIter
    rcases hsel with hp | hc
    · cases hchan : s.messageChan <;> simp [hrun, hctx, hp]
    · simp [hrun, hctx, hc]
  have hret : (step env s (.loop pick)).dispatcher = .returned := by rw [h]
  obtain ⟨h1, h2⟩ := run_of_returned env es _ hret
  refine ⟨h, h1, ?_, ?_⟩
  · rw [h2, h]
  · intro p
    exact dispatchIter_of_not_running env p _ (by rw [h1]; simp)

/-- Witness of C8 as amended: the cancellation case taken with a message unread. -/
theorem cancel_exit_witness :
    cancelledWithBacklog.ctxDone = true ∧
    step Env.calm cancelledWithBacklog (.loop true) =
      { cancelledWithBacklog with dispatcher := .returned } :=
  ⟨by decide,
    (cancel_exit Env.calm cancelledWithBacklog true [] (by decide) (by decide)
      (Or.inl rfl)).1⟩

/-- Counterexample to C8 as stated: the context is cancelled, a message is
unread, nothing has been written; the `select`, with both cases ready, takes
the message, and the message is written to the connection. -/
theorem write_after_cancellation :
    cancelledWithBacklog.ctxDone = true ∧
    cancelledWithBacklog.messageChan = [ping] ∧
    cancelledWithBacklog.dispatcher = .running ∧
    writes cancelledWithBacklog.trace = [] ∧
    writes (step Env.calm cancelledWithBacklog (.loop false)).trace = [(1, ping)] := by
  decide

/-- C5: per-connection write guard.  On a well-formed registry, what a loop
iteration does obeys the write-guard discipline checked by `guardOk`: every
write comes right after the lock of the wrapper of the connection written to
and sees that lock held, the lock is released after the write, on the success
path directly and on the failure path after the error log, and no guard is
held at the end of the iteration; accordingly no wrapper of the registry has
its mutex held afterwards. -/
theorem write_guard_discipline (env : Env) (s : State) (pick : Bool)
    (hwf : WF s.connections) :
    guardOk .free ((step env s (.loop pick)).trace.drop s.trace.length) = true ∧
    ∀ e ∈ (step env s (.loop pick)).connections, e.2.mu = false := by
  have hstep : step env s (.loop pick) = dispatchIter env pick s := rfl
  rw [hstep]
  constructor
  · rcases dispatchIter_cases env pick s hwf with h | ⟨_, _, _, h⟩ | ⟨m, rest, _, _, h⟩
    · rw [h]; simp [guardOk]
    · rw [h]; simp [guardOk]
    · rw [h]
      simp only [List.drop_left]
      simp [iterTrace, guardOk, guardOk_passTrace]
  · rw [dispatchIter_connections env pick s hwf]
    exact fun e he => (hwf.2 e he).2

/-- Witness of C5: three clients, the write to the second one visited fails. -/
theorem write_guard_discipline_witness :
    WF threeClients.connections ∧
    guardOk .free ((step (Env.failing 2) threeClients (.loop false)).trace.drop
      threeClients.trace.length) = true :=
  ⟨by decide, (write_guard_discipline (Env.failing 2) threeClients false (by decide)).1⟩

/-- C4, the code at the failing input: three clients, `"ping"` received by the
dispatch goroutine, whose `range` has produced the wrapper of client 1; then a
close message of client 1 makes its handler run `removeConnection` and `Close`.
Client 1 is out of the registry, closed, and nothing has been written to it;
the next two statements of the dispatch goroutine, `Lock` and `WriteMessage`,
write `"ping"` to it, and when that write fails the goroutine returns.  What
the code does guarantee: when the dispatch goroutine does not have the wrapper
of `c` in hand as the handler of `c` exits (so in every pass that starts after
the removal), `c` stays out of the registry and nothing is ever written to it,
short of a later upgrade handing out the same connection again. -/
theorem write_to_removed_connection :
    (1 ∉ keys removedInFlight.connections ∧
      1 ∈ removedInFlight.closed ∧
      writesTo 1 removedInFlight.trace = [] ∧
      writes ((run Env.calm removedInFlight [.tick false, .tick false]).trace.drop
        removedInFlight.trace.length) = [(1, ping)] ∧
      (run (Env.failing 1) removedInFlight
        [.tick false, .tick false, .tick false]).dispatcher = .returned) ∧
    ∀ (env : Env) (s : State) (c : Conn) (r : ReadResult) (es : List Event),
      (∀ e ∈ s.connections, e.2.conn = e.1) → c ∈ s.reading →
      (r = .err ∨ r = .msg CloseMessage) →
      (∀ w, inHand s.dispatcher = some w → w.conn ≠ c) →
      (∀ e ∈ es, e ≠ Event.request (some c)) →
      c ∉ keys (run env (step env s (.read c r)) es).connections ∧
      writesTo c (run env (step env s (.read c r)) es).trace = writesTo c s.trace := by
  refine ⟨by decide, ?_⟩
  intro env s c r es hk hreading hterm hh hfresh
  have hstep : step env s (.read c r) = handleRead c r s := rfl
  have hex := handleRead_exit c r s hreading hterm
  have hrel : Released c (step env s (.read c r)) := by
    rw [hstep, hex]
    exact ⟨fun e he => hk e (List.mem_of_mem_filter he),
      fun hx => ((mem_keys_mapDelete _ _ _).mp hx).2 rfl, hh⟩
  have hw : writesTo c (step env s (.read c r)).trace = writesTo c s.trace := by
    rw [hstep, hex]
    simp [writesTo_append, writesTo]
  obtain ⟨h1, h2⟩ := Released_run env c es _ hrel hfresh
  exact ⟨h1.2.1, h2.trans hw⟩

/-- Witness of the guarantee in C4: of three clients the second one sends a
close message while the dispatch goroutine is at its `select`; `"pong"` is
sent and both messages are dispatched. -/
theorem write_to_removed_connection_witness :
    (2 : Conn) ∈ threeClients.reading ∧
    writesTo 2 (run Env.calm (step Env.calm threeClients (.read 2 (.msg CloseMessage)))
      [.send pong, .loop false, .tick false, .tick false, .tick false]).trace =
      writesTo 2 threeClients.trace :=
  ⟨by decide,
    (write_to_removed_connection.2 Env.calm threeClients 2 (.msg CloseMessage)
      [.send pong, .loop false, .tick false, .tick false, .tick false]
      (by decide) (by decide) (Or.inr rfl) (by decide) (by decide)).2⟩

/-- C6: connection lifecycle after a successful upgrade, for a connection `c`
that no other handler is serving.  The handler registers `c` and, as long as
the read results are messages that are not close messages, only records the
reads: the registry keeps `c`, nothing is written, nothing is closed.  At the
first read result `r` that is an error or a close message the handler logs at
trace level, deregisters `c` and closes it, the same way for both causes, and
consumes no later read result. -/
theorem connection_lifecycle (env : Env) (s : State) (c : Conn)
    (pre : List ReadResult) (r : ReadResult) (post : List ReadResult)
    (hfresh : c ∉ s.reading)
    (hpre : ∀ x ∈ pre, ∃ t, x = ReadResult.msg t ∧ t ≠ CloseMessage)
    (hterm : r = .err ∨ r = .msg CloseMessage) :
    run env s (.request (some c) :: pre.map (Event.read c)) =
      { s with
        connections := mapStore s.connections c { conn := c, mu := false }
        reading := c :: s.reading
        trace := s.trace ++ [.mutexLock, .mapStore c, .mutexUnlock, .log .debug .wsConnect]
          ++ pre.map (Ev.readMessage c) } ∧
    c ∈ keys (mapStore s.connections c { conn := c, mu := false }) ∧
    run env s (.request (some c) :: (pre ++ r :: post).map (Event.read c)) =
      { s with
        connections := mapDelete (mapStore s.connections c { conn := c, mu := false }) c
        reading := s.reading
        closed := c :: s.closed
        trace := s.trace ++ [.mutexLock, .mapStore c, .mutexUnlock, .log .debug .wsConnect]
          ++ pre.map (Ev.readMessage c)
          ++ [.readMessage c r,
              .log .trace (if r = .err then .clientDisconnected else .closeFrame),
              .mutexLock, .mapDelete c, .mutexUnlock, .close c] } ∧
    c ∉ keys (mapDelete (mapStore s.connections c { conn := c, mu := false }) c) := by
  have hreq : step env s (.request (some c)) =
      { s with
        connections := mapStore s.connections c { conn := c, mu := false }
        reading := c :: s.reading
        trace := s.trace ++ [.mutexLock, .mapStore c, .mutexUnlock, .log .debug .wsConnect] } := by
    simp [step, handleRequest, addConnection]
  have hlive : ∀ l : List Event, run env s (.request (some c) :: l) =
      run env (step env s (.request (some c))) l := fun l => rfl
  have hA : run env s (.request (some c) :: pre.map (Event.read c)) =
      { s with
        connections := mapStore s.connections c { conn := c, mu := false }
        reading := c :: s.reading
        trace := s.trace ++ [.mutexLock, .mapStore c, .mutexUnlock, .log .debug .wsConnect]
          ++ pre.map (Ev.readMessage c) } := by
    rw [hlive, hreq, run_reads_live env c pre _ (List.mem_cons_self _ _) hpre]
  refine ⟨hA, ?_, ?_, fun h => ((mem_keys_mapDelete _ _ _).mp h).2 rfl⟩
  · rw [keys_mapStore]
    by_cases h : c ∈ keys s.connections <;> simp [h]
  · have hsplit : (pre ++ r :: post).map (Event.read c) =
        pre.map (Event.read c) ++ ([Event.read c r] ++ post.map (Event.read c)) := by simp
    rw [hlive, hsplit, run_append, ← hlive, hA, run_append]
    have hone : ∀ s2 : State, run env s2 [Event.read c r] = handleRead c r s2 := fun _ => rfl
    rw [hone, handleRead_exit c r _ (List.mem_cons_self _ _) hterm]
    rw [run_reads_done env c post _ (by simpa using hfresh)]
    simp

/-- Witness of C6: a text message, then a read error, then one more result. -/
theorem connection_lifecycle_witness :
    (4 : Conn) ∉ threeClients.reading ∧
    4 ∉ keys (run Env.calm threeClients
      (.request (some 4) ::
        ([ReadResult.msg TextMessage] ++ ReadResult.err :: [ReadResult.msg TextMessage]).map
        (Event.read 4))).connections :=
  ⟨by decide, by
    rw [(connection_lifecycle Env.calm threeClients 4 [.msg TextMessage] .err [.msg TextMessage]
      (by decide) (fun x hx => ⟨TextMessage, by simpa using hx, by decide⟩) (Or.inl rfl)).2.2.1]
    decide⟩

/-- C7: handshake failure.  When the upgrade fails the handler only logs the
error: the registry, the set of running read loops, the closed connections,
the channel and the dispatch goroutine are what they were, no `addConnection`
is performed and nothing is written. -/
theorem handshake_failure (env : Env) (s : State) :
    step env s (.request none) = { s with trace := s.trace ++ [.log .error .upgradeError] } ∧
    (step env s (.request none)).connections = s.connections ∧
    (step env s (.request none)).reading = s.reading ∧
    writes (step env s (.request none)).trace = writes s.trace :=
  ⟨rfl, rfl, rfl, by simp [step, handleRequest, writes_append, writes]⟩

/-- C2, the code at the failing input: three clients registered, `"ping"` then
`"pong"` sent, the write of `"ping"` to client 1 fails and `range` visits
client 1 first.  Clients 2 and 3 receive neither message, client 1 is still in
the registry, the dispatch goroutine has returned and `"pong"` is left unread. -/
theorem write_failure_not_isolated :
    writesTo 2 afterFailedWrite.trace = [] ∧
    writesTo 3 afterFailedWrite.trace = [] ∧
    1 ∈ keys afterFailedWrite.connections ∧
    afterFailedWrite.dispatcher = .returned ∧
    afterFailedWrite.messageChan = [pong] := by
  decide

/-- C9, the code: a loop iteration never takes the registry mutex, in no state
and whatever the environment does, although it reads the length of the map and
ranges over it (here with three clients and `"ping"` unread), while the
handler brackets its map store with `Lock` and `Unlock` of that mutex. -/
theorem dispatch_reads_registry_unlocked :
    (∀ (env : Env) (s : State) (pick : Bool),
      Ev.mutexLock ∉ (step env s (.loop pick)).trace.drop s.trace.length) ∧
    (step Env.calm threeClients (.loop false)).trace.drop threeClients.trace.length =
      [.mapLen 3, .log .debug .wsWrite, .mapRange [1, 2, 3],
        .muLock 1, .writeMessage 1 TextMessage ping true false, .muUnlock 1,
        .muLock 2, .writeMessage 2 TextMessage ping true false, .muUnlock 2,
        .muLock 3, .writeMessage 3 TextMessage ping true false, .muUnlock 3] ∧
    (step Env.calm threeClients (.request (some 4))).trace.drop threeClients.trace.length =
      [.mutexLock, .mapStore 4, .mutexUnlock, .log .debug .wsConnect] := by
  refine ⟨?_, by decide, by decide⟩
  intro env s pick
  have hstep : step env s (.loop pick) = dispatchIter env pick s := rfl
  rw [hstep]
  unfold dispatchIter
  cases hd : s.dispatcher with
  | running =>
    cases hchan : s.messageChan with
    | nil => by_cases hctx : s.ctxDone = true <;> simp [hctx]
    | cons m rest =>
      by_cases hsel : (s.ctxDone && pick) = true
      · simp [hsel]
      · simp only [hsel, Bool.false_eq_true, if_false]
        obtain ⟨evs, h1, h2⟩ := fanOut_no_mutexLock env m
          (env.rangeOrder (s.trace ++ [Ev.mapLen s.connections.length, Ev.log .debug .wsWrite]).length
            (keys s.connections))
          { s with
            messageChan := rest
            dispatcher := .running
            trace := s.trace ++ [Ev.mapLen s.connections.length, Ev.log .debug .wsWrite] ++
              [Ev.mapRange (env.rangeOrder
                (s.trace ++ [Ev.mapLen s.connections.length, Ev.log .debug .wsWrite]).length
                (keys s.connections))] }
        rw [h1]
        simpa using h2
  | _ => simp

/-- C10, the code: `CheckServicesOptions` returns an error exactly when
`Solver` is empty or `Mediator` is empty, the `Solver` error first; its
`Mediator` error names the flag `service-mediators`, which is not among the
flags `AddServicesCliFlags` registers: those are `service-solver` and
`serviec-mediators`. -/
theorem services_flag_mismatch :
    (∀ o : ServiceConfig,
      (CheckServicesOptions o).isSome = true ↔ (o.Solver = "" ∨ o.Mediator = [])) ∧
    (∀ o : ServiceConfig, o.Solver = "" → CheckServicesOptions o =
      some "No solver service specified - please use SERVICE_SOLVER or --service-solver") ∧
    (CheckServicesOptions { Solver := "solver", Mediator := [] }).map flagsNamed =
      some ["service-mediators"] ∧
    (CheckServicesOptions { Solver := "", Mediator := [] }).map flagsNamed =
      some ["service-solver"] ∧
    (AddServicesCliFlags [] { Solver := "solver", Mediator := [] }).map Flag.name =
      ["service-solver", "serviec-mediators"] ∧
    "service-mediators" ∉
      (AddServicesCliFlags [] { Solver := "solver", Mediator := [] }).map Flag.name := by
  refine ⟨?_, ?_, by decide, by decide, by decide, by decide⟩
  · intro o
    unfold CheckServicesOptions
    by_cases h1 : o.Solver = ""
    · simp [h1]
    · by_cases h2 : o.Mediator = []
      · simp [h1, h2]
      · have h3 : o.Mediator.length ≠ 0 := fun h => h2 (List.length_eq_zero.mp h)
        simp [h1, h2, h3]
  · intro o h
    simp [CheckServicesOptions, h]

end Lilypad
